import Mathlib

/-!
# Verification of the ci-webhook hook engine

A shallow embedding, in Lean 4, of the parts of the `ci-webhook` Go
repository that the specification's claims are about:

* the parameter resolver (`GetParameter`, `ExtractParameterAsString`),
* signature extraction and HMAC validation (`ExtractSignatures`,
  `ValidateMAC`, `CheckPayloadSignature`, `CheckPayloadSignature256`,
  `CheckPayloadSignature512`, `CheckScalrSignature`),
* the rule engine (`Rules`, `AndRule`, `OrRule`, `NotRule`, `MatchRule`
  and their `Evaluate` methods),
* the command-argument extractors on `Hook`
  (`ExtractCommandArguments`, `ExtractCommandArgumentsForEnv`,
  `ExtractCommandArgumentsForFile`), and
* the hook registry reload logic (`Manager.reloadHooks`).

Modelling conventions:

* Go `string` and `[]byte` values are Lean `String`s (a Go string is a
  byte sequence; all inputs relevant here are treated at character
  granularity).  Go's standard-library string functions are re-implemented
  on `String.data` character lists so that every definition evaluates by
  kernel reduction.
* Go `error` values are modelled by the inductive `GoErr`; a Go
  `(T, error)` return with `error == nil` becomes `(t, none)`.
  A Go runtime panic is modelled by the dedicated constructor
  `GoErr.panic`; it never arises as an ordinary returned error.
* Functions of the Go standard library whose internals the claims do not
  depend on (HMAC digests, regexps, JSON marshalling, MIME header
  canonicalisation, IP/CIDR parsing, wall-clock time and date parsing,
  base64 decoding) are abstracted as fields of the `Ext` structure; all
  theorems quantify over `Ext`, hence hold for the real implementations.
* Pointer-receiver methods that mutate their receiver are modelled as
  functions that also return the updated value.
-/

set_option autoImplicit false

namespace Webhook

/-! ## Go string primitives, re-implemented over character lists -/

/-- Build a `String` from its character list. -/
def ofChars (cs : List Char) : String := ⟨cs⟩

/-- Split a character list at every occurrence of the character `c`.
Mirrors Go `strings.Split(s, sep)` for a one-character separator:
the result is never empty, and splitting the empty string yields
one empty part. -/
def splitCharList (c : Char) : List Char → List (List Char)
  | [] => [[]]
  | x :: rest =>
    match splitCharList c rest with
    | [] => [[]]
    | g :: gs => if x = c then [] :: g :: gs else (x :: g) :: gs

/-- Go `strings.Split(s, string(c))` for a one-character separator. -/
def goSplitChar (s : String) (c : Char) : List String :=
  (splitCharList c s.data).map ofChars

/-- Go `strings.Contains(s, string(c))` for a one-character needle. -/
def goContainsChar (s : String) (c : Char) : Bool :=
  s.data.contains c

/-- Go `strings.HasPrefix(s, pre)`. -/
def goHasPrefixStr (s pre : String) : Bool :=
  pre.data.isPrefixOf s.data

/-- Go `strings.TrimPrefix(s, pre)`: remove `pre` from the front of `s`
if present, otherwise return `s` unchanged. -/
def goTrimPrefixStr (s pre : String) : String :=
  if goHasPrefixStr s pre then ofChars (s.data.drop pre.data.length) else s

/-- Go `strings.ToUpper` (ASCII behaviour, which is all the source uses). -/
def goToUpper (s : String) : String := ofChars (s.data.map Char.toUpper)

/-- Go `strings.ToLower` (ASCII behaviour, which is all the source uses). -/
def goToLower (s : String) : String := ofChars (s.data.map Char.toLower)

/-- Go `strings.Trim(s, cutset)`: remove leading and trailing characters
contained in `cutset`. -/
def goTrimCutset (s cutset : String) : String :=
  ofChars ((((s.data.dropWhile (cutset.data.contains ·)).reverse).dropWhile
    (cutset.data.contains ·)).reverse)

/-- Go `strings.LastIndex(s, string(c))` for a one-character needle,
as an optional character index (the source only applies it to ASCII
remote addresses, where byte and character indices coincide). -/
def goLastIndexChar (s : String) (c : Char) : Option Nat :=
  let idxs := (List.range s.data.length).filter
    (fun i => s.data.getD i c = c && (s.data.get? i).isSome)
  idxs.getLast?

/-- Take the first `n` characters, Go `s[:n]` on ASCII input. -/
def goTake (s : String) (n : Nat) : String := ofChars (s.data.take n)

/-- Go `strings.Fields(s)`: split around runs of white space. -/
def goFields (s : String) : List String :=
  ((splitCharList ' ' s.data).filter (· ≠ [])).map ofChars

/-- Join with `"."`; inverse of splitting on `'.'`.  Used to reconstruct
the tail that Go's `strings.SplitN(s, ".", 2)` keeps joined. -/
def dotJoin (segs : List String) : String :=
  ofChars (List.intercalate ['.'] (segs.map String.data))

/-- Go `strconv.ParseUint(s, 10, 64)`: a non-empty all-digit string whose
value fits in 64 bits; `none` models a returned parse or range error. -/
def goParseUint64 (s : String) : Option Nat :=
  if s.data ≠ [] ∧ s.data.all Char.isDigit then
    let n := s.data.foldl (fun a c => a * 10 + (c.toNat - 48)) 0
    if n < 2 ^ 64 then some n else none
  else none

/-- Go conversion `int(u)` of a `uint64` value on a 64-bit platform:
two's-complement wrap into the signed range. -/
def intOfUint64 (u : Nat) : Int :=
  if u < 2 ^ 63 then (u : Int) else (u : Int) - 2 ^ 64

/-! ## The JSON-like parameter tree

Go's decoded payloads are untyped `interface{}` trees built from
`map[string]interface{}`, `[]interface{}`, `string`, `json.Number`,
`bool` and `nil`.  `JSON.null` models the untyped `nil` interface value
(for which `params == nil` is true and reflection is never reached). -/

inductive JSON where
  /-- the untyped `nil` interface value -/
  | null
  | bool (b : Bool)
  /-- a `json.Number`, kept as its exact source token -/
  | num (tok : String)
  | str (s : String)
  /-- a `[]interface{}` slice -/
  | arr (xs : List JSON)
  /-- a `map[string]interface{}`; association list with the first binding
  of a key the visible one (decoded Go maps have unique keys) -/
  | obj (fields : List (String × JSON))

/-- Go map read `m[k]` (comma-ok form) on a decoded object. -/
def goMapLookup (fields : List (String × JSON)) (k : String) : Option JSON :=
  (fields.find? (fun p => p.1 = k)).map (·.2)

/-! ## Errors -/

/-- `SignatureError` of `signature.go`: an invalid payload signature. -/
structure SignatureError where
  Signature : String
  Signatures : Option (List String)
  emptyPayload : Bool
  deriving DecidableEq, Repr

/-- `Argument` of `request.go` (`part_002`): a parameter descriptor. -/
structure Argument where
  Source : String
  Name : String
  EnvName : String
  Base64Decode : Bool
  deriving DecidableEq, Repr

/-- Go `error` values produced by the embedded code.  `argument` models
`*ArgumentError` (which wraps, via `Unwrap`), `wrapped` models
`fmt.Errorf("...: %w", err)`, `str` models `errors.New`/`fmt.Errorf`
leaves, `multi` models a `*multierror.Error`, and `panic` models a Go
runtime panic (not an ordinary returned error). -/
inductive GoErr where
  /-- `*ParameterNodeError{key}` -/
  | parameterNode (key : String)
  /-- `*SignatureError` -/
  | signature (e : SignatureError)
  /-- `*ArgumentError{Argument, err}`; has an `Unwrap` method -/
  | argument (arg : Argument) (err : GoErr)
  /-- `*SourceError{Argument}` -/
  | source (arg : Argument)
  /-- an opaque error with only a message -/
  | str (msg : String)
  /-- `fmt.Errorf` with `%w`: message plus wrapped error -/
  | wrapped (msg : String) (err : GoErr)
  /-- `*multierror.Error` carrying the accumulated errors -/
  | multi (errs : List GoErr)
  /-- a Go runtime panic -/
  | panic (msg : String)

/-- `IsParameterNodeError` of `request.go` (`part_000`): `errors.As`
unwraps through `ArgumentError.Unwrap` and `fmt.Errorf` `%w` chains. -/
def IsParameterNodeError : GoErr → Bool
  | .parameterNode _ => true
  | .argument _ e => IsParameterNodeError e
  | .wrapped _ e => IsParameterNodeError e
  | _ => false

/-- `IsSignatureError` of `signature.go` (`part_003`): a plain type
switch, which — unlike `errors.As` — does *not* unwrap. -/
def IsSignatureError : GoErr → Bool
  | .signature _ => true
  | _ => false

/-- `multierror` accumulation: `result.ErrorOrNil()` with the collected
error list. -/
def errorOrNil : List GoErr → Option GoErr
  | [] => none
  | e :: es => some (.multi (e :: es))

/-! ## GetParameter (`part_000`, lines 190–241)

The Go function recurses on `(s, params)`, splitting `s` with
`strings.SplitN(s, ".", 2)` at each step.  The embedding pre-splits the
path on `'.'` and recurses structurally on the segment list; the full
remaining dotted path — which Go keeps as `s` and uses for the literal
map-key probe and for `ParameterNodeError{s}` — is recovered by
`dotJoin`.  `goParseUint64`/`intOfUint64` reproduce
`strconv.ParseUint(p, 10, 64)` followed by the `int(index)` conversion
in the bounds test `paramsValueSliceLength <= int(index)`; an
out-of-range index of value `≥ 2^63` therefore slips past the bounds
test and the subsequent slice access panics. -/

def getParameterSegs (segs : List String) (params : JSON) : Except GoErr JSON :=
  let s := dotJoin segs
  match params with
  | .null => .error (.str "no parameters")
  | .arr xs =>
    if xs.length > 0 then
      match segs with
      | [] => .error (.parameterNode s)
      | seg :: rest =>
        if rest ≠ [] then
          match goParseUint64 seg with
          | none => .error (.parameterNode s)
          | some index =>
            if (xs.length : Int) ≤ intOfUint64 index then
              .error (.parameterNode s)
            else if h : index < xs.length then
              getParameterSegs rest (xs.get ⟨index, h⟩)
            else
              .error (.panic "runtime error: index out of range")
        else
          match goParseUint64 s with
          | none => .error (.parameterNode s)
          | some index =>
            if (xs.length : Int) ≤ intOfUint64 index then
              .error (.parameterNode s)
            else if h : index < xs.length then
              .ok (xs.get ⟨index, h⟩)
            else
              .error (.panic "runtime error: index out of range")
    else
      .error (.parameterNode s)
  | .obj fields =>
    match goMapLookup fields s with
    | some v => .ok v
    | none =>
      match segs with
      | [] => .error (.parameterNode s)
      | seg :: rest =>
        match goMapLookup fields seg with
        | some pValue =>
          if rest ≠ [] then getParameterSegs rest pValue else .ok pValue
        | none => .error (.parameterNode s)
  | _ => .error (.parameterNode s)

/-- `GetParameter` of `part_000`: extract a value from the parameter
tree following a dotted path. -/
def GetParameter (s : String) (params : JSON) : Except GoErr JSON :=
  getParameterSegs (goSplitChar s '.') params

/-- Does a resolution result carry a `ParameterNodeError`? -/
def resultIsParameterNode : Except GoErr JSON → Bool
  | .error e => IsParameterNodeError e
  | .ok _ => false

/-! ## External standard-library functions

The Go code calls into packages whose internals none of the claims
depend on.  They are collected in `Ext` and quantified over, so every
theorem holds in particular for the real implementations. -/

structure Ext where
  /-- `textproto.CanonicalMIMEHeaderKey` -/
  canonicalMIMEHeaderKey : String → String
  /-- `json.Marshal` on a decoded tree (cannot fail on such trees) -/
  jsonMarshal : JSON → String
  /-- `regexp.MatchString pattern s`; `.error` is a compile error message -/
  regexMatchString : String → String → Except String Bool
  /-- hex-encoded `HMAC-SHA1(secret, message)` -/
  hmacSHA1Hex : String → String → String
  /-- hex-encoded `HMAC-SHA256(secret, message)` -/
  hmacSHA256Hex : String → String → String
  /-- hex-encoded `HMAC-SHA512(secret, message)` -/
  hmacSHA512Hex : String → String → String
  /-- `net.ParseIP`: `none` models a `nil` result -/
  parseIP : String → Option String
  /-- `net.ParseCIDR`: on success the membership test of the network,
  on failure the error message -/
  parseCIDR : String → Except String (String → Bool)
  /-- `time.Parse layout value` as a nanosecond timestamp;
  `.error` is the parse error message -/
  timeParse : String → String → Except String Int
  /-- `time.Now()` as a nanosecond timestamp -/
  now : Int
  /-- `base64.StdEncoding.DecodeString`: the (possibly partial) decoded
  bytes; the accompanying error is only logged by the source, never
  returned, so it is not modelled -/
  base64DecodeString : String → String

/-! ## The request model

The `Request` type itself is not among the provided source files; only
its uses are.

Modelled from the spec: §3 "Request" — `headers`, `query` and `payload`
are decoded `map[string]interface{}` mappings (`none` models a `nil`
map, which Go distinguishes from an empty one in `CheckScalrSignature`),
`body` is the raw byte slice, `allowSignatureErrors` is the per-request
flag set from the hook's `trigger-signature-soft-failures`, and
`rawRequest` is the handle used for remote-address/method access
(`none` models a `nil` `*http.Request`). -/

structure RawRequest where
  RemoteAddr : String
  Method : String
  deriving DecidableEq, Repr

structure Request where
  Headers : Option (List (String × JSON))
  Query : Option (List (String × JSON))
  Payload : Option (List (String × JSON))
  Body : String
  RawRequest : Option RawRequest
  AllowSignatureErrors : Bool

/-- A possibly-`nil` Go map viewed as the `interface{}` value passed to
`GetParameter`: a `nil` map is a non-`nil` interface of kind `Map` with
no entries, so it reads as an empty object. -/
def mapAsJSON (m : Option (List (String × JSON))) : JSON :=
  .obj (m.getD [])

/-! ## Parameter extraction (`part_000`, `part_002`) -/

/-- `fmt.Sprintf("%v", v)` on the scalar values that reach the default
branch of `ExtractParameterAsString`. -/
def goStringify : JSON → String
  | .null => "<nil>"
  | .bool b => if b then "true" else "false"
  | .num tok => tok
  | .str s => s
  | .arr _ => ""
  | .obj _ => ""

/-- `ExtractParameterAsString` of `part_000`: resolve, then render
composite values as JSON and scalars via `%v`. -/
def ExtractParameterAsString (ext : Ext) (s : String) (params : JSON) :
    Except GoErr String :=
  match GetParameter s params with
  | .error e => .error (.wrapped "parameter extraction failed" e)
  | .ok v =>
    match v with
    | .arr xs => .ok (ext.jsonMarshal (.arr xs))
    | .obj fields => .ok (ext.jsonMarshal (.obj fields))
    | v => .ok (goStringify v)

/-- The lower-case `Argument.get` of `part_002`: source dispatch. -/
def Argument.get (ext : Ext) (ha : Argument) (r : Request) :
    Except GoErr String :=
  match ha.Source with
  | "header" =>
    ExtractParameterAsString ext (ext.canonicalMIMEHeaderKey ha.Name)
      (mapAsJSON r.Headers)
  | "url" => ExtractParameterAsString ext ha.Name (mapAsJSON r.Query)
  | "query" => ExtractParameterAsString ext ha.Name (mapAsJSON r.Query)
  | "payload" => ExtractParameterAsString ext ha.Name (mapAsJSON r.Payload)
  | "string" => .ok ha.Name
  | "raw-request-body" => .ok r.Body
  | "request" =>
    match r.RawRequest with
    | none => .error (.str "request is nil")
    | some raw =>
      match goToLower ha.Name with
      | "remote-addr" => .ok raw.RemoteAddr
      | "method" => .ok raw.Method
      | _ => .error (.str ("unsupported request key: " ++ ha.Name))
  | "entire-payload" => .ok (ext.jsonMarshal (mapAsJSON r.Payload))
  | "entire-headers" => .ok (ext.jsonMarshal (mapAsJSON r.Headers))
  | "entire-query" => .ok (ext.jsonMarshal (mapAsJSON r.Query))
  | _ => .error (.str "no source for value retrieval")

/-- `Argument.Get` of `part_002`: wraps any error in an
`*ArgumentError`. -/
def Argument.Get (ext : Ext) (ha : Argument) (r : Request) :
    Except GoErr String :=
  match ha.get ext r with
  | .error e => .error (.argument ha e)
  | .ok v => .ok v

/-! ## Signature extraction (`part_000`, lines 85–111) -/

/-- The loop body of `ExtractCommaSeparatedValues`: keep the parts that
start with the wanted key prefix and strip it. -/
def extractLoop (pre : String) : List String → List String
  | [] => []
  | part :: rest =>
    if goHasPrefixStr part pre then
      goTrimPrefixStr part pre :: extractLoop pre rest
    else
      extractLoop pre rest

/-- `ExtractCommaSeparatedValues` of `part_000`. -/
def ExtractCommaSeparatedValues (source pre : String) : List String :=
  extractLoop pre (goSplitChar source ',')

/-- `ExtractSignatures` of `part_000`. -/
def ExtractSignatures (source pre : String) : List String :=
  if goContainsChar source ',' then
    ExtractCommaSeparatedValues source pre
  else
    [goTrimPrefixStr source pre]

/-! ## HMAC validation (`part_003`) -/

/-- The comparison loop of `ValidateMAC`: `hmac.Equal` on equal-length
byte strings is plain equality. -/
def macMatchLoop (actualMAC : String) : List String → Bool
  | [] => false
  | signature :: rest =>
    if signature = actualMAC then true else macMatchLoop actualMAC rest

/-- `ValidateMAC` of `part_003`.  The Go function receives a keyed
`hash.Hash` and writes `payload` into it; `mac` is that object as the
function from written message to hex digest (`hash.Hash.Write` never
returns an error, so the `err` propagated on success is `nil`). -/
def ValidateMAC (payload : String) (mac : String → String)
    (signatures : List String) : String × Option GoErr :=
  let actualMAC := mac payload
  if macMatchLoop actualMAC signatures then
    (actualMAC, none)
  else
    (actualMAC, some (.signature
      { Signature := "", Signatures := some signatures,
        emptyPayload := payload.length == 0 }))

/-- `CheckPayloadSignature` of `part_003` (SHA-1). -/
def CheckPayloadSignature (ext : Ext) (payload secret signature : String) :
    String × Option GoErr :=
  if secret = "" then
    ("", some (.str "signature validation secret can not be empty"))
  else
    ValidateMAC payload (ext.hmacSHA1Hex secret)
      (ExtractSignatures signature "sha1=")

/-- `CheckPayloadSignature256` of `part_003` (SHA-256). -/
def CheckPayloadSignature256 (ext : Ext) (payload secret signature : String) :
    String × Option GoErr :=
  if secret = "" then
    ("", some (.str "signature validation secret can not be empty"))
  else
    ValidateMAC payload (ext.hmacSHA256Hex secret)
      (ExtractSignatures signature "sha256=")

/-- `CheckPayloadSignature512` of `part_003` (SHA-512). -/
def CheckPayloadSignature512 (ext : Ext) (payload secret signature : String) :
    String × Option GoErr :=
  if secret = "" then
    ("", some (.str "signature validation secret can not be empty"))
  else
    ValidateMAC payload (ext.hmacSHA512Hex secret)
      (ExtractSignatures signature "sha512=")

/-! ## IP whitelist (`part_000`, lines 113–149) -/

/-- The range loop of `CheckIPWhitelist`. -/
def ipRangeLoop (ext : Ext) (parsedIP : String) : List String →
    Bool × Option GoErr
  | [] => (false, none)
  | r :: rest =>
    let r := if goContainsChar r '/' then r else r ++ "/32"
    match ext.parseCIDR r with
    | .error msg => (false, some (.str msg))
    | .ok contains =>
      if contains parsedIP then (true, none) else ipRangeLoop ext parsedIP rest

/-- `CheckIPWhitelist` of `part_000`. -/
def CheckIPWhitelist (ext : Ext) (remoteAddr ipRange : String) :
    Bool × Option GoErr :=
  let ip := goTrimCutset remoteAddr " []"
  let ip :=
    match goLastIndexChar ip ':' with
    | some i => goTrimCutset (goTake ip i) " []"
    | none => ip
  match ext.parseIP ip with
  | none =>
    (false, some (.str
      ("invalid IP address found in remote address " ++ remoteAddr)))
  | some parsedIP => ipRangeLoop ext parsedIP (goFields ipRange)

/-! ## Scalr signature (`part_003`, lines 115–157) -/

/-- The date layout literal of `CheckScalrSignature`. -/
def scalrDateLayout : String := "Mon 02 Jan 2006 15:04:05 MST"

/-- `CheckScalrSignature` of `part_003`.  The two `.(string)` type
assertions panic when a header holds a non-string value; that panic is
modelled by `GoErr.panic`. -/
def CheckScalrSignature (ext : Ext) (r : Request) (signingKey : String)
    (checkDate : Bool) : Bool × Option GoErr :=
  match r.Headers with
  | none => (false, none)
  | some hdrs =>
    match goMapLookup hdrs "X-Signature" with
    | none => (false, none)
    | some sigV =>
      match goMapLookup hdrs "Date" with
      | none => (false, none)
      | some dateV =>
        if signingKey = "" then
          (false, some (.str "signature validation signing key can not be empty"))
        else
          match sigV, dateV with
          | .str providedSignature, .str dateHeader =>
            let expectedSignature :=
              ext.hmacSHA1Hex signingKey (r.Body ++ dateHeader)
            if providedSignature ≠ expectedSignature then
              (false, some (.signature
                { Signature := providedSignature, Signatures := none,
                  emptyPayload := false }))
            else if !checkDate then
              (true, none)
            else
              match ext.timeParse scalrDateLayout dateHeader with
              | .error msg => (false, some (.str msg))
              | .ok date =>
                if 300 * 1000000000 < (ext.now - date).natAbs then
                  (false, some (.signature
                    { Signature := "outdated", Signatures := none,
                      emptyPayload := false }))
                else
                  (true, none)
          | _, _ => (false, some (.panic "interface conversion"))

/-! ## The rule tree (`part_001`) -/

/-- `MatchRule` of `part_001`.  The Go field `Type` is a Lean keyword,
so it is embedded as `Type'`. -/
structure MatchRule where
  Type' : String
  Regex : String
  Secret : String
  Value : String
  Parameter : Argument
  IPRange : String
  deriving DecidableEq, Repr

/-- `compare` of `part_001`: `subtle.ConstantTimeCompare` agrees with
plain equality of the byte strings. -/
def compare (a b : String) : Bool := a = b

/-- The `MatchRule` type constants of `part_001`. -/
def MatchValue : String := "value"
def MatchRegex : String := "regex"
def MatchHMACSHA1 : String := "payload-hmac-sha1"
def MatchHMACSHA256 : String := "payload-hmac-sha256"
def MatchHMACSHA512 : String := "payload-hmac-sha512"
def MatchHashSHA1 : String := "payload-hash-sha1"
def MatchHashSHA256 : String := "payload-hash-sha256"
def MatchHashSHA512 : String := "payload-hash-sha512"
def IPWhitelist : String := "ip-whitelist"
def ScalrSignature : String := "scalr-signature"

/-- `MatchRule.Evaluate` of `part_001`.  The `payload-hash-*` cases fall
through to their `payload-hmac-*` twins (the deprecation warning is only
logged).  A `nil` `RawRequest` dereference in the `ip-whitelist` case is
a Go panic, modelled by `GoErr.panic`. -/
def MatchRule.Evaluate (ext : Ext) (r : MatchRule) (req : Request) :
    Bool × Option GoErr :=
  if r.Type' = IPWhitelist then
    match req.RawRequest with
    | none => (false, some (.panic "runtime error: nil pointer dereference"))
    | some raw => CheckIPWhitelist ext raw.RemoteAddr r.IPRange
  else if r.Type' = ScalrSignature then
    CheckScalrSignature ext req r.Secret true
  else
    match Argument.Get ext r.Parameter req with
    | .error e => (false, some e)
    | .ok arg =>
      if r.Type' = MatchValue then
        (compare arg r.Value, none)
      else if r.Type' = MatchRegex then
        match ext.regexMatchString r.Regex arg with
        | .error msg => (false, some (.str msg))
        | .ok b => (b, none)
      else if r.Type' = MatchHashSHA1 ∨ r.Type' = MatchHMACSHA1 then
        match (CheckPayloadSignature ext req.Body r.Secret arg).2 with
        | none => (true, none)
        | some e => (false, some e)
      else if r.Type' = MatchHashSHA256 ∨ r.Type' = MatchHMACSHA256 then
        match (CheckPayloadSignature256 ext req.Body r.Secret arg).2 with
        | none => (true, none)
        | some e => (false, some e)
      else if r.Type' = MatchHashSHA512 ∨ r.Type' = MatchHMACSHA512 then
        match (CheckPayloadSignature512 ext req.Body r.Secret arg).2 with
        | none => (true, none)
        | some e => (false, some e)
      else
        (false, none)

/-- `Rules` of `part_001`: a struct of four optional variants.
`andR`/`orR` carry the `AndRule`/`OrRule` child lists. -/
inductive Rules where
  | mk (andR : Option (List Rules)) (orR : Option (List Rules))
       (notR : Option Rules) (matchR : Option MatchRule)

mutual

/-- `Rules.Evaluate` of `part_001`: dispatch to the first non-`nil`
variant, `(false, nil)` when all four are absent.  The `not` case is
the body of `NotRule.Evaluate` inlined (Lean's structural-recursion
checker does not accept the intermediate same-size call); the wrapper
`NotRule.Evaluate` below agrees with this case definitionally, and the
`and`/`or` cases go through the loop bodies of `AndRule.Evaluate` and
`OrRule.Evaluate` with their initial accumulator values. -/
def Rules.Evaluate (ext : Ext) (req : Request) : Rules → Bool × Option GoErr
  | .mk (some cs) _ _ _ => andLoop ext req true cs
  | .mk none (some cs) _ _ => orLoop ext req false cs
  | .mk none none (some c) _ =>
    match Rules.Evaluate ext req c with
    | (rv, err) => (!rv, err)
  | .mk none none none (some m) => m.Evaluate ext req
  | .mk none none none none => (false, none)
  termination_by structural r => r

/-- The loop of `AndRule.Evaluate` of `part_001`, with the running
`res` accumulator. -/
def andLoop (ext : Ext) (req : Request) (res : Bool) :
    List Rules → Bool × Option GoErr
  | [] => (res, none)
  | v :: rest =>
    match Rules.Evaluate ext req v with
    | (rv, err) =>
      match err with
      | some e => (false, some e)
      | none =>
        let res := res && rv
        if !res then (res, none) else andLoop ext req res rest
  termination_by structural l => l

/-- The loop of `OrRule.Evaluate` of `part_001`, with the running
`res` accumulator and the error-suppression conditional exactly as in
the source. -/
def orLoop (ext : Ext) (req : Request) (res : Bool) :
    List Rules → Bool × Option GoErr
  | [] => (res, none)
  | v :: rest =>
    match Rules.Evaluate ext req v with
    | (rv, err) =>
      match err with
      | some e =>
        if !(IsParameterNodeError e) then
          if !req.AllowSignatureErrors
              || (req.AllowSignatureErrors && !(IsSignatureError e)) then
            (false, some e)
          else
            let res := res || rv
            if res then (res, none) else orLoop ext req res rest
        else
          let res := res || rv
          if res then (res, none) else orLoop ext req res rest
      | none =>
        let res := res || rv
        if res then (res, none) else orLoop ext req res rest
  termination_by structural l => l

end

/-- `AndRule.Evaluate` of `part_001`. -/
def AndRule.Evaluate (ext : Ext) (req : Request) (r : List Rules) :
    Bool × Option GoErr :=
  andLoop ext req true r

/-- `OrRule.Evaluate` of `part_001`. -/
def OrRule.Evaluate (ext : Ext) (req : Request) (r : List Rules) :
    Bool × Option GoErr :=
  orLoop ext req false r

/-- `NotRule.Evaluate` of `part_001`: invert the value, keep the
error. -/
def NotRule.Evaluate (ext : Ext) (req : Request) (r : Rules) :
    Bool × Option GoErr :=
  match Rules.Evaluate ext req r with
  | (rv, err) => (!rv, err)

/-! ## Hooks (`part_000`) -/

/-- `Header` of `part_000`. -/
structure Header where
  Name : String
  Value : String
  deriving DecidableEq, Repr

/-- `FileParameter` of `part_000`.  The `File *os.File` handle is `nil`
throughout the extraction phase (it is populated later by the command
executor), so it is not modelled. -/
structure FileParameter where
  EnvName : String
  Data : String
  deriving DecidableEq, Repr

/-- `EnvNamespace` of `part_000`. -/
def EnvNamespace : String := "HOOK_"

/-- `Hook` of `part_000`.  `Timeout` is a `time.Duration`
(nanoseconds as a signed 64-bit integer, embedded as `Int`). -/
structure Hook where
  ID : String
  ExecuteCommand : String
  CommandWorkingDirectory : String
  ResponseMessage : String
  ResponseHeaders : List Header
  CaptureCommandOutput : Bool
  StreamCommandOutput : Bool
  CaptureCommandOutputOnError : Bool
  PassEnvironmentToCommand : List Argument
  PassArgumentsToCommand : List Argument
  PassFileToCommand : List Argument
  JSONStringParameters : List Argument
  TriggerRule : Option Rules
  TriggerRuleMismatchHttpResponseCode : Int
  TriggerSignatureSoftFailures : Bool
  IncomingPayloadContentType : String
  SuccessHttpResponseCode : Int
  HTTPMethods : List String
  Timeout : Int

/-- The loop of `Hook.ExtractCommandArguments` of `part_000`: resolved
values in order; a failed resolution contributes an empty-string
argument and an accumulated error. -/
def argsLoop (ext : Ext) (r : Request) :
    List Argument → List String × List GoErr
  | [] => ([], [])
  | a :: rest =>
    match Argument.Get ext a r with
    | .error e =>
      match argsLoop ext r rest with
      | (vs, es) => ("" :: vs, e :: es)
    | .ok arg =>
      match argsLoop ext r rest with
      | (vs, es) => (arg :: vs, es)

/-- `Hook.ExtractCommandArguments` of `part_000`.  Like every extractor
it is a pointer-receiver method, so the receiver after the call is the
last component of the result; its body contains no assignment to any
receiver field, so that component is `h` itself. -/
def Hook.ExtractCommandArguments (ext : Ext) (h : Hook) (r : Request) :
    List String × Option GoErr × Hook :=
  match argsLoop ext r h.PassArgumentsToCommand with
  | (vs, es) => (h.ExecuteCommand :: vs, errorOrNil es, h)

/-- The loop of `Hook.ExtractCommandArgumentsForEnv` of `part_000`:
entries in `NAME=value` form; a failed resolution is skipped with an
accumulated error. -/
def envLoop (ext : Ext) (r : Request) :
    List Argument → List String × List GoErr
  | [] => ([], [])
  | a :: rest =>
    match Argument.Get ext a r with
    | .error e =>
      match envLoop ext r rest with
      | (vs, es) => (vs, e :: es)
    | .ok arg =>
      let entry :=
        if a.EnvName ≠ "" then a.EnvName ++ "=" ++ arg
        else EnvNamespace ++ a.Name ++ "=" ++ arg
      match envLoop ext r rest with
      | (vs, es) => (entry :: vs, es)

/-- `Hook.ExtractCommandArgumentsForEnv` of `part_000`.  As above, the
receiver after the call is the last component; the body contains no
assignment to any receiver field. -/
def Hook.ExtractCommandArgumentsForEnv (ext : Ext) (h : Hook) (r : Request) :
    List String × Option GoErr × Hook :=
  match envLoop ext r h.PassEnvironmentToCommand with
  | (vs, es) => (vs, errorOrNil es, h)

/-- The loop of `Hook.ExtractCommandArgumentsForFile` of `part_000`.
The Go loop assigns `h.PassFileToCommand[i].EnvName = EnvNamespace +
strings.ToUpper(...Name)` through the receiver pointer whenever the
entry's `EnvName` is empty and its value resolved, so the loop also
returns the updated argument list.  A resolution failure is wrapped —
a second time, `Argument.Get` already wrapped once — in an
`*ArgumentError`. -/
def filesLoop (ext : Ext) (r : Request) :
    List Argument → List Argument × List FileParameter × List GoErr
  | [] => ([], [], [])
  | a :: rest =>
    match Argument.Get ext a r with
    | .error e =>
      match filesLoop ext r rest with
      | (as, fs, es) => (a :: as, fs, .argument a e :: es)
    | .ok arg =>
      let a :=
        if a.EnvName = "" then
          { a with EnvName := EnvNamespace ++ goToUpper a.Name }
        else a
      let fileContent :=
        if a.Base64Decode then ext.base64DecodeString arg else arg
      match filesLoop ext r rest with
      | (as, fs, es) =>
        (a :: as, { EnvName := a.EnvName, Data := fileContent } :: fs, es)

/-- `Hook.ExtractCommandArgumentsForFile` of `part_000`.  The Go method
mutates its receiver (see `filesLoop`), so the updated hook is the last
component of the result. -/
def Hook.ExtractCommandArgumentsForFile (ext : Ext) (h : Hook)
    (r : Request) : List FileParameter × Option GoErr × Hook :=
  match filesLoop ext r h.PassFileToCommand with
  | (as, fs, es) =>
    (fs, errorOrNil es, { h with PassFileToCommand := as })

/-! ## The hook registry (`internal/hook_manager`)

The `Manager` state that `reloadHooks` reads and writes is the
`hooksInFiles map[string]Hooks` mapping, embedded as an association
list from file path to the hook sequence parsed from that file (Go map
keys are unique; iteration order of `matchLoadedHook` is not specified
in Go, and the claims only depend on whether a match exists).
`LoadFromFile` performs file I/O, so `reloadHooks` receives the parse
result directly: `none` models a parse/read error. -/

/-- `Hooks.Match` of `loader.go`: the first hook with the given ID. -/
def Hooks.Match (h : List Hook) (id : String) : Option Hook :=
  h.find? (fun k => k.ID = id)

/-- Go `m.hooksInFiles[path]`: missing keys read as the empty (nil)
sequence. -/
def hooksInFile (state : List (String × List Hook)) (path : String) :
    List Hook :=
  (((state.find? (fun p => p.1 = path)).map (·.2)).getD [])

/-- `Manager.matchLoadedHook` of `manager.go`: search every file's
sequence. -/
def matchLoadedHook (state : List (String × List Hook)) (id : String) :
    Option Hook :=
  state.findSome? (fun p => Hooks.Match p.2 id)

/-- Go map assignment `m.hooksInFiles[path] = hs`: replace the binding
if present, insert it otherwise. -/
def mapUpdate (state : List (String × List Hook)) (path : String)
    (hs : List Hook) : List (String × List Hook) :=
  if (state.find? (fun p => p.1 = path)).isSome then
    state.map (fun p => if p.1 = path then (path, hs) else p)
  else
    state ++ [(path, hs)]

/-- The cross-file collision test of `Manager.reloadHooks`
(`manager.go`, lines 126–135) for one parsed hook:
`matchLoadedHook(h.ID) != nil && !wasHookIDAlreadyLoaded`, with
`wasHookIDAlreadyLoaded` the scan of the file's previous sequence. -/
def collideB (state : List (String × List Hook)) (path : String)
    (h : Hook) : Bool :=
  (matchLoadedHook state h.ID).isSome &&
    !(Hooks.Match (hooksInFile state path) h.ID).isSome

/-- The per-hook check loop of `Manager.reloadHooks` (`manager.go`,
lines 125–143): walk the newly parsed hooks, tracking the IDs already
seen in this file (`seenHooksIds`); answer `true` when the reload must
be rejected. -/
def reloadCheckLoop (state : List (String × List Hook)) (path : String)
    (seen : List String) : List Hook → Bool
  | [] => false
  | h :: rest =>
    if collideB state path h || seen.contains h.ID then
      true
    else
      reloadCheckLoop state path (h.ID :: seen) rest

/-- Does `Manager.reloadHooks` reject this parsed sequence? -/
def reloadRejects (state : List (String × List Hook)) (path : String)
    (hs : List Hook) : Bool :=
  reloadCheckLoop state path [] hs

/-- `Manager.reloadHooks` of `manager.go` as a state transformer: on a
parse error or a rejected sequence the mapping is unchanged, otherwise
the file's sequence is replaced. -/
def reloadHooks (state : List (String × List Hook)) (path : String)
    (parsed : Option (List Hook)) : List (String × List Hook) :=
  match parsed with
  | none => state
  | some hooksInFileNew =>
    if reloadRejects state path hooksInFileNew then state
    else mapUpdate state path hooksInFileNew

/-- All hook IDs of a registry state, in file order. -/
def unionIDs (state : List (String × List Hook)) : List String :=
  (state.map (fun p => p.2.map Hook.ID)).flatten

/-! ## Specification-side definitions

The following definitions are written from the specification's words —
not from the source — and are compared with the embedded source
functions by the refinement theorems below. -/

/-- Spec §4.5: signature extraction as the specification words it —
split on commas when one is present, keep exactly the parts starting
with the wanted key prefix, strip it from each; with no comma, a
one-element list with the prefix (if present) stripped. -/
def ExtractSignaturesSpec (source pre : String) : List String :=
  if goContainsChar source ',' then
    ((goSplitChar source ',').filter (fun part => goHasPrefixStr part pre)).map
      (fun part => goTrimPrefixStr part pre)
  else
    [goTrimPrefixStr source pre]

/-- Spec §4.4/§7 (claim C1): an error is suppressible inside `or` iff it
is a `ParameterNodeError`, or the request's `allowSignatureErrors` flag
is set and it is a `SignatureError`. -/
def suppressible (allow : Bool) (e : GoErr) : Bool :=
  IsParameterNodeError e || (allow && IsSignatureError e)

/-- Is an evaluation-result error component absent or suppressible? -/
def errOk (allow : Bool) : Option GoErr → Bool
  | none => true
  | some e => suppressible allow e

/-- Spec §4.4 (claim C1): the `or`-node semantics as the specification
words them, as a fold over the child evaluation results: a suppressible
child error lets evaluation continue, any other child error aborts with
`(false, err)`, a child value of `true` yields `(true, nil)`, and when
every child fails only with suppressible errors the node yields
`(false, nil)`. -/
def orFold (allow : Bool) : List (Bool × Option GoErr) → Bool × Option GoErr
  | [] => (false, none)
  | (rv, err) :: rest =>
    match err with
    | some e =>
      if suppressible allow e then
        if rv then (true, none) else orFold allow rest
      else
        (false, some e)
    | none => if rv then (true, none) else orFold allow rest

/-- Spec §4.1 (claim C4), as amended: dotted-path resolution as the
specification words it.  On a mapping node the full remaining path is
tried as a literal key first, otherwise the head segment is the key and
resolution descends; on a sequence node the head segment must parse as
a non-negative 64-bit integer index within range.  A missing key,
unparseable index, or out-of-range index fails with
`ParameterNodeError` — except (the amendment, forced by the source's
`int(index)` conversion) an out-of-range index of numeric value
`≥ 2^63`, which panics. -/
def getParameterSpecSegs (segs : List String) (params : JSON) :
    Except GoErr JSON :=
  let s := dotJoin segs
  match params with
  | .null => .error (.str "no parameters")
  | .arr xs =>
    match segs with
    | [] => .error (.parameterNode s)
    | seg :: rest =>
      if xs.length = 0 then .error (.parameterNode s)
      else
        match goParseUint64 seg with
        | none => .error (.parameterNode s)
        | some index =>
          if h : index < xs.length then
            if rest = [] then .ok (xs.get ⟨index, h⟩)
            else getParameterSpecSegs rest (xs.get ⟨index, h⟩)
          else if index < 2 ^ 63 then .error (.parameterNode s)
          else .error (.panic "runtime error: index out of range")
  | .obj fields =>
    match goMapLookup fields s with
    | some v => .ok v
    | none =>
      match segs with
      | [] => .error (.parameterNode s)
      | seg :: rest =>
        match goMapLookup fields seg with
        | some pValue =>
          if rest = [] then .ok pValue else getParameterSpecSegs rest pValue
        | none => .error (.parameterNode s)
  | _ => .error (.parameterNode s)

/-- Spec §4.1 (claim C4), as amended, on a dotted path. -/
def GetParameterSpec (s : String) (params : JSON) : Except GoErr JSON :=
  getParameterSpecSegs (goSplitChar s '.') params

/-! ## Helper lemmas -/

theorem dotJoin_single (seg : String) : dotJoin [seg] = seg := by
  simp [dotJoin, List.intercalate, ofChars]

theorem extractLoop_eq (pre : String) (parts : List String) :
    extractLoop pre parts =
      (parts.filter (fun part => goHasPrefixStr part pre)).map
        (fun part => goTrimPrefixStr part pre) := by
  induction parts with
  | nil => rfl
  | cons p rest ih =>
    by_cases h : goHasPrefixStr p pre <;>
      simp [extractLoop, h, ih]

/-! ## Claims -/

/-- **C5** — `ExtractSignatures`: with a comma in the source, split on
commas, keep exactly the parts starting with the prefix and strip it
from each; otherwise a one-element list with the prefix stripped; and
`ExtractSignatures "sha256=a,sha256=b" "sha256="` is `["a", "b"]`. -/
theorem c5_extract_signatures :
    (∀ source pre, ExtractSignatures source pre =
      ExtractSignaturesSpec source pre) ∧
    ExtractSignatures "sha256=a,sha256=b" "sha256=" = ["a", "b"] := by
  constructor
  · intro source pre
    unfold ExtractSignatures ExtractSignaturesSpec ExtractCommaSeparatedValues
    rw [extractLoop_eq]
  · rfl

/-- **C6** — a `Rules` node with all four variants absent evaluates to
`false` with no error, for every request. -/
theorem c6_empty_rules_node (ext : Ext) (req : Request) :
    Rules.Evaluate ext req (.mk none none none none) = (false, none) := rfl

theorem goParseUint64_lt {s : String} {n : Nat}
    (h : goParseUint64 s = some n) : n < 2 ^ 64 := by
  unfold goParseUint64 at h
  split at h
  · dsimp only at h
    split at h
    · cases h; assumption
    · cases h
  · cases h

theorem getParameterSegs_eq_spec (segs : List String) (params : JSON) :
    getParameterSegs segs params = getParameterSpecSegs segs params := by
  induction segs generalizing params with
  | nil =>
    cases params with
    | null => rfl
    | bool b => rfl
    | num tok => rfl
    | str s => rfl
    | arr xs =>
      simp only [getParameterSegs, getParameterSpecSegs]
      split <;> rfl
    | obj fields =>
      simp only [getParameterSegs, getParameterSpecSegs]
  | cons seg rest ih =>
    cases params with
    | null => rfl
    | bool b => rfl
    | num tok => rfl
    | str s => rfl
    | arr xs =>
      simp only [getParameterSegs, getParameterSpecSegs]
      by_cases hlen : xs.length = 0
      · simp [hlen]
      · have hpos : xs.length > 0 := Nat.pos_of_ne_zero hlen
        rw [if_pos hpos, if_neg hlen]
        by_cases hrest : rest = []
        · subst hrest
          rw [if_neg (by simp), dotJoin_single]
          cases hp : goParseUint64 seg with
          | none => rfl
          | some index =>
            dsimp only
            have h64 := goParseUint64_lt hp
            by_cases hidx : index < xs.length
            · have hcond : ¬ ((xs.length : Int) ≤ intOfUint64 index) := by
                unfold intOfUint64; split <;> omega
              rw [if_neg hcond, dif_pos hidx, dif_pos hidx, if_pos rfl]
            · by_cases h63 : index < 2 ^ 63
              · have hcond : (xs.length : Int) ≤ intOfUint64 index := by
                  unfold intOfUint64; rw [if_pos h63]; omega
                rw [if_pos hcond, dif_neg hidx, if_pos h63]
              · have hcond : ¬ ((xs.length : Int) ≤ intOfUint64 index) := by
                  unfold intOfUint64; rw [if_neg h63]; omega
                rw [if_neg hcond, dif_neg hidx, dif_neg hidx, if_neg h63]
        · rw [if_pos hrest]
          cases hp : goParseUint64 seg with
          | none => rfl
          | some index =>
            dsimp only
            have h64 := goParseUint64_lt hp
            by_cases hidx : index < xs.length
            · have hcond : ¬ ((xs.length : Int) ≤ intOfUint64 index) := by
                unfold intOfUint64; split <;> omega
              rw [if_neg hcond, dif_pos hidx, dif_pos hidx, if_neg hrest, ih]
            · by_cases h63 : index < 2 ^ 63
              · have hcond : (xs.length : Int) ≤ intOfUint64 index := by
                  unfold intOfUint64; rw [if_pos h63]; omega
                rw [if_pos hcond, dif_neg hidx, if_pos h63]
              · have hcond : ¬ ((xs.length : Int) ≤ intOfUint64 index) := by
                  unfold intOfUint64; rw [if_neg h63]; omega
                rw [if_neg hcond, dif_neg hidx, dif_neg hidx, if_neg h63]
    | obj fields =>
      simp only [getParameterSegs, getParameterSpecSegs]
      cases hs : goMapLookup fields (dotJoin (seg :: rest)) with
      | some v => rfl
      | none =>
        cases hseg : goMapLookup fields seg with
        | some pValue =>
          by_cases hrest : rest = [] <;> simp [hrest, ih]
        | none => rfl

/-- **C4** (counterexample) — on the path `"9223372036854775808"`
(the value `2^63`) over the one-element sequence `[null]`, the index is
parseable and out of range, yet resolution does not fail with a
`ParameterNodeError`: the `int(index)` conversion wraps to a negative
number, the bounds test passes, and the slice access panics. -/
theorem c4_counterexample :
    GetParameter "9223372036854775808" (.arr [.null]) =
      .error (.panic "runtime error: index out of range") ∧
    resultIsParameterNode
      (GetParameter "9223372036854775808" (.arr [.null])) = false :=
  ⟨rfl, rfl⟩

/-- **C4** (as amended) — `GetParameter` resolves exactly as the
specification describes (literal dotted keys first on mappings, head
segment as key or index otherwise, `ParameterNodeError` on missing
keys, unparseable indices and out-of-range indices), except that an
out-of-range index of numeric value `≥ 2^63` causes a runtime panic
(index out of range) instead of a `ParameterNodeError`; and
`commits.0.branch` over `{"commits":[{"branch":"master"}]}` resolves
to `"master"`. -/
theorem c4_get_parameter :
    (∀ s params, GetParameter s params = GetParameterSpec s params) ∧
    GetParameter "commits.0.branch"
      (.obj [("commits", .arr [.obj [("branch", .str "master")]])]) =
      .ok (.str "master") :=
  ⟨fun s params => getParameterSegs_eq_spec (goSplitChar s '.') params, rfl⟩

/-! ## Concrete instances used by witnesses and counterexamples -/

/-- A concrete instantiation of the external functions, for evaluating
witnesses. -/
def extW : Ext where
  canonicalMIMEHeaderKey := fun s => s
  jsonMarshal := fun _ => ""
  regexMatchString := fun _ _ => .ok false
  hmacSHA1Hex := fun _ _ => ""
  hmacSHA256Hex := fun _ _ => ""
  hmacSHA512Hex := fun _ _ => ""
  parseIP := fun _ => none
  parseCIDR := fun _ => .error "invalid CIDR address"
  timeParse := fun _ _ => .error "parsing time error"
  now := 0
  base64DecodeString := fun s => s

/-- A concrete request: empty payload mapping, soft failures off. -/
def reqW : Request where
  Headers := none
  Query := none
  Payload := some []
  Body := ""
  RawRequest := none
  AllowSignatureErrors := false

/-- A `string`-source argument carrying the literal `"x"`. -/
def argStringW : Argument where
  Source := "string"
  Name := "x"
  EnvName := ""
  Base64Decode := false

/-- An argument with an empty (invalid) source. -/
def argNoSourceW : Argument where
  Source := ""
  Name := ""
  EnvName := ""
  Base64Decode := false

/-- A `payload`-source argument naming a missing field. -/
def argMissingW : Argument where
  Source := "payload"
  Name := "missing"
  EnvName := ""
  Base64Decode := false

/-- A `value` match that passes: the literal `"x"` against `"x"`. -/
def trueChildW : Rules :=
  .mk none none none (some ⟨"value", "", "", "x", argStringW, ""⟩)

/-- A `value` match that fails cleanly: the literal `"x"` against
`"y"`. -/
def falseChildW : Rules :=
  .mk none none none (some ⟨"value", "", "", "y", argStringW, ""⟩)

/-- A `value` match whose argument has no source: its evaluation fails
with a non-suppressible error. -/
def fatalChildW : Rules :=
  .mk none none none (some ⟨"value", "", "", "", argNoSourceW, ""⟩)

/-- A `value` match on a missing payload field: its evaluation fails
with a (suppressible) `ParameterNodeError` wrapped in an
`ArgumentError`. -/
def missingMatchW : MatchRule := ⟨"value", "", "", "", argMissingW, ""⟩

/-- The error produced by evaluating `missingMatchW` against `reqW`. -/
def missingErrW : GoErr :=
  .argument argMissingW
    (.wrapped "parameter extraction failed" (.parameterNode "missing"))

/-! ## Rule-engine lemmas -/

theorem orLoop_eq_orFold (ext : Ext) (req : Request) (r : List Rules) :
    orLoop ext req false r =
      orFold req.AllowSignatureErrors (r.map (Rules.Evaluate ext req)) := by
  induction r with
  | nil => rfl
  | cons v rest ih =>
    rw [List.map_cons]
    simp only [orLoop, orFold]
    cases hv : Rules.Evaluate ext req v with
    | mk rv err =>
      dsimp only
      cases err with
      | none => cases rv <;> simp_all
      | some e =>
        cases hp : IsParameterNodeError e <;>
          cases ha : req.AllowSignatureErrors <;>
            cases hq : IsSignatureError e <;>
              cases rv <;>
                simp_all [suppressible]

theorem orFold_append_true (allow : Bool) (pres : List (Bool × Option GoErr))
    (c : Bool × Option GoErr) (posts : List (Bool × Option GoErr))
    (hc1 : c.1 = true) (hc2 : errOk allow c.2 = true)
    (hpre : ∀ p ∈ pres, errOk allow p.2 = true) :
    orFold allow (pres ++ c :: posts) = (true, none) := by
  induction pres with
  | nil =>
    obtain ⟨rv, err⟩ := c
    simp only at hc1
    subst hc1
    cases err with
    | none => rfl
    | some e =>
      simp only [errOk] at hc2
      simp [orFold, hc2]
  | cons p pres ih =>
    have hrest : ∀ q ∈ pres, errOk allow q.2 = true :=
      fun q hq => hpre q (List.mem_cons_of_mem _ hq)
    obtain ⟨rv, err⟩ := p
    have hp := hpre (rv, err) (List.mem_cons_self _ _)
    cases err with
    | none => cases rv <;> simp_all [orFold]
    | some e =>
      simp only [errOk] at hp
      cases rv <;> simp_all [orFold]

theorem andLoop_append_false (ext : Ext) (req : Request) (res : Bool)
    (pre : List Rules) (c : Rules) (post : List Rules)
    (hc : (Rules.Evaluate ext req c).1 = false) :
    andLoop ext req res (pre ++ c :: post) =
      andLoop ext req res (pre ++ [c]) ∧
    (andLoop ext req res (pre ++ c :: post)).1 = false := by
  induction pre generalizing res with
  | nil =>
    simp only [List.nil_append, andLoop]
    cases hv : Rules.Evaluate ext req c with
    | mk rv err =>
      rw [hv] at hc
      simp only at hc
      subst hc
      cases err <;> simp
  | cons p pre ih =>
    simp only [List.cons_append, andLoop]
    cases hv : Rules.Evaluate ext req p with
    | mk rv err =>
      dsimp only
      cases err with
      | some e => simp
      | none =>
        cases hres : res && rv
        · simp
        · have h2 := ih (res && rv)
          rw [hres] at h2
          simpa using h2

/-! ## Claims about the rule engine -/

/-- **C1** — inside an `or` node, a child error is suppressed exactly
when it is a `ParameterNodeError` or (with `allowSignatureErrors` set)
a `SignatureError`; any other child error aborts the node with
`(false, err)`; when every child fails only with suppressible errors the
node yields `(false, nil)`: `OrRule.Evaluate` coincides with the
spec-side fold `orFold` over the child evaluation results. -/
theorem c1_or_error_suppression (ext : Ext) (req : Request)
    (r : List Rules) :
    OrRule.Evaluate ext req r =
      orFold req.AllowSignatureErrors (r.map (Rules.Evaluate ext req)) :=
  orLoop_eq_orFold ext req r

/-- **C7** (counterexample) — an `or` node has a child that evaluates
to `(true, nil)`, yet the node evaluates to `false`, because an earlier
sibling fails with a non-suppressible error (a "no source for value
retrieval" resolution failure, which is neither a `ParameterNodeError`
nor a `SignatureError`). -/
theorem c7_counterexample :
    Rules.Evaluate extW reqW trueChildW = (true, none) ∧
    (OrRule.Evaluate extW reqW [fatalChildW, trueChildW]).1 = false :=
  ⟨rfl, rfl⟩

/-- **C7** (as amended) — an `or` node evaluates to `(true, nil)` when
some child evaluates to `true` and neither that child nor any earlier
sibling produces a non-suppressible error (errors of later siblings are
irrelevant); an `and` node with a child that evaluates to `false`
evaluates to `false`, and its result does not depend on the children
after that child. -/
theorem c7_short_circuit :
    (∀ ext req (pre : List Rules) c post,
      (Rules.Evaluate ext req c).1 = true →
      errOk req.AllowSignatureErrors (Rules.Evaluate ext req c).2 = true →
      (∀ p ∈ pre, errOk req.AllowSignatureErrors
        (Rules.Evaluate ext req p).2 = true) →
      OrRule.Evaluate ext req (pre ++ c :: post) = (true, none)) ∧
    (∀ ext req (pre : List Rules) c post,
      (Rules.Evaluate ext req c).1 = false →
      AndRule.Evaluate ext req (pre ++ c :: post) =
        AndRule.Evaluate ext req (pre ++ [c]) ∧
      (AndRule.Evaluate ext req (pre ++ c :: post)).1 = false) := by
  constructor
  · intro ext req pre c post hc1 hc2 hpre
    show orLoop ext req false (pre ++ c :: post) = (true, none)
    rw [orLoop_eq_orFold, List.map_append, List.map_cons]
    refine orFold_append_true _ _ _ _ hc1 hc2 ?_
    intro p hp
    rcases List.mem_map.mp hp with ⟨q, hq, rfl⟩
    exact hpre q hq
  · intro ext req pre c post hc
    exact andLoop_append_false ext req true pre c post hc

/-- Witness for `c7_short_circuit` at concrete inputs: the passing
child first with a non-suppressible failure after it (`or` part); a
false child followed by a further child (`and` part). -/
theorem c7_short_circuit_witness :
    (Rules.Evaluate extW reqW trueChildW).1 = true ∧
    errOk reqW.AllowSignatureErrors
      (Rules.Evaluate extW reqW trueChildW).2 = true ∧
    OrRule.Evaluate extW reqW [trueChildW, fatalChildW] = (true, none) ∧
    (Rules.Evaluate extW reqW falseChildW).1 = false ∧
    AndRule.Evaluate extW reqW [falseChildW, trueChildW] =
      AndRule.Evaluate extW reqW [falseChildW] ∧
    (AndRule.Evaluate extW reqW [falseChildW, trueChildW]).1 = false :=
  ⟨rfl, rfl,
    c7_short_circuit.1 extW reqW [] trueChildW [fatalChildW] rfl rfl
      (fun p hp => absurd hp (List.not_mem_nil p)),
    rfl,
    (c7_short_circuit.2 extW reqW [] falseChildW [trueChildW] rfl).1,
    (c7_short_circuit.2 extW reqW [] falseChildW [trueChildW] rfl).2⟩

/-- **C10** — a `not` node over a child returning `(false, err)` yields
`(true, err)`; consequently, inside an `or` node (whose earlier
siblings do not fail non-suppressibly), a `not` child whose inner rule
fails with a suppressible error counts as a passing child and the `or`
node evaluates to `(true, nil)`. -/
theorem c10_not_with_error :
    (∀ ext req r e, Rules.Evaluate ext req r = (false, some e) →
      NotRule.Evaluate ext req r = (true, some e)) ∧
    (∀ ext req (pre : List Rules) m post e,
      Rules.Evaluate ext req m = (false, some e) →
      suppressible req.AllowSignatureErrors e = true →
      (∀ p ∈ pre, errOk req.AllowSignatureErrors
        (Rules.Evaluate ext req p).2 = true) →
      OrRule.Evaluate ext req
        (pre ++ (Rules.mk none none (some m) none) :: post) =
        (true, none)) := by
  constructor
  · intro ext req r e h
    unfold NotRule.Evaluate
    rw [h]
    rfl
  · intro ext req pre m post e hm hsup hpre
    have hnot : Rules.Evaluate ext req (Rules.mk none none (some m) none) =
        (true, some e) := by
      show (match Rules.Evaluate ext req m with
            | (rv, err) => (!rv, err)) = (true, some e)
      rw [hm]
      rfl
    show orLoop ext req false _ = (true, none)
    rw [orLoop_eq_orFold, List.map_append, List.map_cons]
    refine orFold_append_true _ _ _ _ ?_ ?_ ?_
    · rw [hnot]
    · rw [hnot]
      exact hsup
    · intro p hp
      rcases List.mem_map.mp hp with ⟨q, hq, rfl⟩
      exact hpre q hq

/-- Witness for `c10_not_with_error` at concrete inputs: an `or` node
whose only child is a `not` over a `match` rule on a missing payload
field (a `ParameterNodeError` inside an `ArgumentError`, hence
suppressible). -/
theorem c10_not_with_error_witness :
    Rules.Evaluate extW reqW (.mk none none none (some missingMatchW)) =
      (false, some missingErrW) ∧
    suppressible reqW.AllowSignatureErrors missingErrW = true ∧
    NotRule.Evaluate extW reqW (.mk none none none (some missingMatchW)) =
      (true, some missingErrW) ∧
    OrRule.Evaluate extW reqW
      [.mk none none
        (some (.mk none none none (some missingMatchW))) none] =
      (true, none) :=
  ⟨rfl, rfl,
    c10_not_with_error.1 extW reqW (.mk none none none (some missingMatchW))
      missingErrW rfl,
    c10_not_with_error.2 extW reqW []
      (.mk none none none (some missingMatchW)) [] missingErrW rfl rfl
      (fun p hp => absurd hp (List.not_mem_nil p))⟩

/-! ## Claims about signature verification -/

/-- Spec §4.5 (claim C2): the outcome of payload-signature checking as
the specification words it — the hex digest of the raw body, paired
with no error when some extracted candidate equals it, and otherwise
with a `SignatureError` carrying the candidate list and an
`emptyPayload` flag set exactly when the body is empty. -/
def checkAgainst (payload mac : String) (cands : List String) :
    String × Option GoErr :=
  if mac ∈ cands then (mac, none)
  else
    (mac, some (.signature
      { Signature := "", Signatures := some cands,
        emptyPayload := payload.length == 0 }))

theorem macMatchLoop_iff (actualMAC : String) (l : List String) :
    macMatchLoop actualMAC l = true ↔ actualMAC ∈ l := by
  induction l with
  | nil => simp [macMatchLoop]
  | cons s rest ih =>
    by_cases h : s = actualMAC
    · simp [macMatchLoop, h]
    · simp only [macMatchLoop, if_neg h, ih, List.mem_cons]
      constructor
      · exact Or.inr
      · rintro (heq | hm)
        · exact absurd heq.symm h
        · exact hm

theorem validateMAC_eq (payload : String) (mac : String → String)
    (signatures : List String) :
    ValidateMAC payload mac signatures =
      checkAgainst payload (mac payload) signatures := by
  unfold ValidateMAC checkAgainst
  by_cases h : mac payload ∈ signatures
  · rw [if_pos ((macMatchLoop_iff _ _).mpr h), if_pos h]
  · rw [if_neg (fun hc => h ((macMatchLoop_iff _ _).mp hc)), if_neg h]

/-- One payload-signature checker behaves as claim C2 states. -/
def sigCheckSpec (check : String × Option GoErr) (payload mac : String)
    (cands : List String) : Prop :=
  check = checkAgainst payload mac cands ∧ (check.2 = none ↔ mac ∈ cands)

/-- The conclusion of claim C2 for all three hash variants. -/
def payloadSignatureConcl (ext : Ext) (payload secret sigHeader : String) :
    Prop :=
  sigCheckSpec (CheckPayloadSignature ext payload secret sigHeader) payload
    (ext.hmacSHA1Hex secret payload) (ExtractSignatures sigHeader "sha1=") ∧
  sigCheckSpec (CheckPayloadSignature256 ext payload secret sigHeader) payload
    (ext.hmacSHA256Hex secret payload) (ExtractSignatures sigHeader "sha256=") ∧
  sigCheckSpec (CheckPayloadSignature512 ext payload secret sigHeader) payload
    (ext.hmacSHA512Hex secret payload) (ExtractSignatures sigHeader "sha512=")

theorem sigCheckSpec_of_eq {check : String × Option GoErr}
    {payload mac : String} {cands : List String}
    (h : check = checkAgainst payload mac cands) :
    sigCheckSpec check payload mac cands := by
  refine ⟨h, ?_⟩
  rw [h]
  unfold checkAgainst
  by_cases hm : mac ∈ cands <;> simp [hm]

/-- **C2** — for every payload, non-empty secret and signature header:
`CheckPayloadSignature256` (and the SHA-1/512 variants) returns a nil
error iff some candidate extracted from the header equals the
hex-encoded HMAC of the raw body under the secret; otherwise it returns
a `SignatureError` carrying the candidate list whose `emptyPayload`
flag is set exactly when the body has length 0. -/
theorem c2_payload_signature (ext : Ext) (payload secret sigHeader : String)
    (hsecret : secret ≠ "") :
    payloadSignatureConcl ext payload secret sigHeader := by
  refine ⟨?_, ?_, ?_⟩ <;>
    [unfold CheckPayloadSignature; unfold CheckPayloadSignature256;
      unfold CheckPayloadSignature512] <;>
    rw [if_neg hsecret] <;>
    exact sigCheckSpec_of_eq (validateMAC_eq _ _ _)

/-- Witness for `c2_payload_signature` at a concrete instance: empty
body, secret `"s"`, header `"x"`, with `extW`'s digests. -/
theorem c2_payload_signature_witness :
    ("s" : String) ≠ "" ∧ payloadSignatureConcl extW "" "s" "x" :=
  ⟨by decide, c2_payload_signature extW "" "s" "x" (by decide)⟩

/-- The conclusion of claim C8: with the headers present (as strings)
and the key non-empty, `CheckScalrSignature` with `checkDate` rejects a
wrong signature with `SignatureError{Signature: provided}`, and rejects
a correct signature whose parsed date differs from the current time by
more than 300 seconds with `SignatureError{Signature: "outdated"}`. -/
def scalrConcl (ext : Ext) (r : Request)
    (signingKey providedSignature dateHeader : String) : Prop :=
  (providedSignature ≠ ext.hmacSHA1Hex signingKey (r.Body ++ dateHeader) →
    CheckScalrSignature ext r signingKey true =
      (false, some (.signature
        { Signature := providedSignature, Signatures := none,
          emptyPayload := false }))) ∧
  (providedSignature = ext.hmacSHA1Hex signingKey (r.Body ++ dateHeader) →
    ∀ date, ext.timeParse scalrDateLayout dateHeader = .ok date →
      300 * 1000000000 < (ext.now - date).natAbs →
      CheckScalrSignature ext r signingKey true =
        (false, some (.signature
          { Signature := "outdated", Signatures := none,
            emptyPayload := false })))

/-- **C8** — Scalr signature checking with `checkDate = true`: the
provided `X-Signature` is compared against the hex HMAC-SHA1 of the
body followed by the `Date` header bytes; a correct signature is still
rejected as `SignatureError{"outdated"}` when the date parsed with
layout `Mon 02 Jan 2006 15:04:05 MST` is more than 300 seconds away
from the current time. -/
theorem c8_scalr_signature (ext : Ext) (r : Request)
    (signingKey ps dh : String) (hdrs : List (String × JSON))
    (hH : r.Headers = some hdrs)
    (hsig : goMapLookup hdrs "X-Signature" = some (.str ps))
    (hdate : goMapLookup hdrs "Date" = some (.str dh))
    (hkey : signingKey ≠ "") :
    scalrConcl ext r signingKey ps dh := by
  constructor
  · intro hne
    unfold CheckScalrSignature
    rw [hH]
    dsimp only
    rw [hsig]
    dsimp only
    rw [hdate]
    dsimp only
    rw [if_neg hkey, if_pos hne]
  · intro heq date hparse hdelta
    unfold CheckScalrSignature
    rw [hH]
    dsimp only
    rw [hsig]
    dsimp only
    rw [hdate]
    dsimp only
    rw [if_neg hkey, if_neg (by simpa using heq)]
    rw [if_neg (by decide : ¬((!true) = true))]
    rw [hparse]
    dsimp only
    rw [if_pos hdelta]

/-- External functions for the `c8_scalr_signature` witness: the HMAC
digest is the constant `"sig"`, the layout-aware date parser maps the
header `"D"` to timestamp 0, and the current time is 600 seconds
(10 minutes). -/
def extScalrW : Ext :=
  { extW with
    hmacSHA1Hex := fun _ _ => "sig"
    timeParse := fun layout v =>
      if layout = scalrDateLayout ∧ v = "D" then .ok 0
      else .error "parsing time error"
    now := 600 * 1000000000 }

/-- The header mapping for the `c8_scalr_signature` witness. -/
def hdrsScalrW : List (String × JSON) :=
  [("X-Signature", .str "sig"), ("Date", .str "D")]

/-- The request for the `c8_scalr_signature` witness. -/
def reqScalrW : Request where
  Headers := some hdrsScalrW
  Query := none
  Payload := none
  Body := ""
  RawRequest := none
  AllowSignatureErrors := false

/-- Witness for `c8_scalr_signature`: a valid signature whose `Date`
header is 10 minutes old is rejected as outdated. -/
theorem c8_scalr_signature_witness :
    reqScalrW.Headers = some hdrsScalrW ∧
    goMapLookup hdrsScalrW "X-Signature" = some (.str "sig") ∧
    goMapLookup hdrsScalrW "Date" = some (.str "D") ∧
    ("k" : String) ≠ "" ∧
    CheckScalrSignature extScalrW reqScalrW "k" true =
      (false, some (.signature
        { Signature := "outdated", Signatures := none,
          emptyPayload := false })) ∧
    scalrConcl extScalrW reqScalrW "k" "sig" "D" :=
  ⟨rfl, rfl, rfl, by decide,
    (c8_scalr_signature extScalrW reqScalrW "k" "sig" "D" hdrsScalrW
        rfl rfl rfl (by decide)).2 rfl 0 rfl (by decide),
    c8_scalr_signature extScalrW reqScalrW "k" "sig" "D" hdrsScalrW
      rfl rfl rfl (by decide)⟩

/-! ## Claim C9: extraction and the hook value -/

/-- The per-entry receiver update performed by
`Hook.ExtractCommandArgumentsForFile`: an entry whose value resolves
and whose `EnvName` is empty gets the fallback
`HOOK_` + uppercased name written back into the hook. -/
def fileEnvNameUpdate (ext : Ext) (r : Request) (a : Argument) : Argument :=
  match Argument.Get ext a r with
  | .error _ => a
  | .ok _ =>
    if a.EnvName = "" then
      { a with EnvName := EnvNamespace ++ goToUpper a.Name }
    else a

theorem filesLoop_fst (ext : Ext) (r : Request) (l : List Argument) :
    (filesLoop ext r l).1 = l.map (fileEnvNameUpdate ext r) := by
  induction l with
  | nil => rfl
  | cons a rest ih =>
    rcases hq : filesLoop ext r rest with ⟨as, fs, es⟩
    rw [hq] at ih
    simp only at ih
    cases hg : Argument.Get ext a r with
    | error e =>
      simp [filesLoop, hg, hq, fileEnvNameUpdate, ih]
    | ok arg =>
      simp [filesLoop, hg, hq, fileEnvNameUpdate, ih]

/-- A hook with all fields at their zero values. -/
def hookZeroW : Hook where
  ID := ""
  ExecuteCommand := ""
  CommandWorkingDirectory := ""
  ResponseMessage := ""
  ResponseHeaders := []
  CaptureCommandOutput := false
  StreamCommandOutput := false
  CaptureCommandOutputOnError := false
  PassEnvironmentToCommand := []
  PassArgumentsToCommand := []
  PassFileToCommand := []
  JSONStringParameters := []
  TriggerRule := none
  TriggerRuleMismatchHttpResponseCode := 0
  TriggerSignatureSoftFailures := false
  IncomingPayloadContentType := ""
  SuccessHttpResponseCode := 0
  HTTPMethods := []
  Timeout := 0

/-- A hook passing one file argument (`string` source, name `"x"`,
empty `EnvName`) to the command. -/
def hookFileW : Hook :=
  { hookZeroW with ID := "file-hook", PassFileToCommand := [argStringW] }

/-- **C9** (counterexample) — `ExtractCommandArgumentsForFile` *does*
modify the `EnvName` field of a `passFileToCommand` entry: on a hook
whose single entry has an empty `EnvName` and name `"x"`, the hook
after the call carries `EnvName = "HOOK_X"`. -/
theorem c9_counterexample :
    ((Hook.ExtractCommandArgumentsForFile extW hookFileW
        reqW).2.2).PassFileToCommand.map Argument.EnvName = ["HOOK_X"] ∧
    hookFileW.PassFileToCommand.map Argument.EnvName = [""] :=
  ⟨rfl, rfl⟩

/-- **C9** (as amended) — extracting command arguments and environment
entries leaves the hook unchanged; `ExtractCommandArgumentsForFile`
leaves every field unchanged *except* `PassFileToCommand`, in which
each entry whose value resolves and whose `EnvName` is empty gets
`EnvName` set to `HOOK_` + the uppercased name. -/
theorem c9_extract_hook_frame :
    (∀ ext h r, (Hook.ExtractCommandArguments ext h r).2.2 = h) ∧
    (∀ ext h r, (Hook.ExtractCommandArgumentsForEnv ext h r).2.2 = h) ∧
    (∀ ext h r, (Hook.ExtractCommandArgumentsForFile ext h r).2.2 =
      { h with PassFileToCommand :=
          h.PassFileToCommand.map (fileEnvNameUpdate ext r) }) := by
  refine ⟨?_, ?_, ?_⟩
  · intro ext h r
    unfold Hook.ExtractCommandArguments
    rcases argsLoop ext r h.PassArgumentsToCommand with ⟨vs, es⟩
    rfl
  · intro ext h r
    unfold Hook.ExtractCommandArgumentsForEnv
    rcases envLoop ext r h.PassEnvironmentToCommand with ⟨vs, es⟩
    rfl
  · intro ext h r
    unfold Hook.ExtractCommandArgumentsForFile
    have hfst := filesLoop_fst ext r h.PassFileToCommand
    rcases hq : filesLoop ext r h.PassFileToCommand with ⟨as, fs, es⟩
    rw [hq] at hfst
    simp only at hfst
    rw [← hfst]

/-! ## Claim C3: registry reload lemmas -/

theorem hooksMatch_isSome (l : List Hook) (id : String) :
    (Hooks.Match l id).isSome = true ↔ id ∈ l.map Hook.ID := by
  unfold Hooks.Match
  rw [List.find?_isSome]
  constructor
  · rintro ⟨k, hk, hkid⟩
    exact List.mem_map.mpr ⟨k, hk, by simpa using hkid⟩
  · intro hmem
    rcases List.mem_map.mp hmem with ⟨k, hk, rfl⟩
    exact ⟨k, hk, by simp⟩

theorem matchLoadedHook_isSome (state : List (String × List Hook))
    (id : String) :
    (matchLoadedHook state id).isSome = true ↔
      ∃ p ∈ state, id ∈ p.2.map Hook.ID := by
  unfold matchLoadedHook
  constructor
  · intro h
    rcases Option.isSome_iff_exists.mp h with ⟨v, hv⟩
    rcases List.exists_of_findSome?_eq_some hv with ⟨p, hp, hfp⟩
    refine ⟨p, hp, (hooksMatch_isSome _ _).mp ?_⟩
    simp [hfp]
  · rintro ⟨p, hp, hid⟩
    cases hfs : state.findSome? (fun p => Hooks.Match p.2 id) with
    | some v => simp
    | none =>
      have h0 := List.findSome?_eq_none_iff.mp hfs p hp
      rw [← hooksMatch_isSome] at hid
      simp [h0] at hid

theorem hooksInFile_eq_of_mem (state : List (String × List Hook))
    (path : String) (l : List Hook)
    (hk : (state.map Prod.fst).Nodup) (hmem : (path, l) ∈ state) :
    hooksInFile state path = l := by
  induction state with
  | nil => cases hmem
  | cons q rest ih =>
    rw [List.map_cons, List.nodup_cons] at hk
    rcases List.mem_cons.mp hmem with heq | hmem2
    · unfold hooksInFile
      rw [← heq]
      rw [List.find?_cons_of_pos _ (by simp)]
      rfl
    · have hq1 : ¬ (q.1 = path) := by
        intro hq
        exact hk.1 (hq ▸ List.mem_map.mpr ⟨(path, l), hmem2, rfl⟩)
      unfold hooksInFile
      rw [List.find?_cons_of_neg _ (by simpa using hq1)]
      exact ih hk.2 hmem2

theorem hooksInFile_spec (state : List (String × List Hook))
    (path : String) :
    hooksInFile state path = [] ∨
      (path, hooksInFile state path) ∈ state := by
  unfold hooksInFile
  cases hf : state.find? (fun p => p.1 = path) with
  | none => exact Or.inl rfl
  | some q =>
    right
    have hq1 : q.1 = path := by simpa using List.find?_some hf
    have hqm := List.mem_of_find?_eq_some hf
    dsimp only [Option.map_some', Option.getD_some]
    rw [← hq1]
    simpa using hqm

theorem find_key_isSome (state : List (String × List Hook))
    (path : String) :
    (state.find? (fun p => p.1 = path)).isSome = true ↔
      path ∈ state.map Prod.fst := by
  rw [List.find?_isSome]
  constructor
  · rintro ⟨p, hp, hpp⟩
    exact List.mem_map.mpr ⟨p, hp, by simpa using hpp⟩
  · intro h
    rcases List.mem_map.mp h with ⟨p, hp, rfl⟩
    exact ⟨p, hp, by simp⟩

/-- Claim C3's invariant: registry file paths are unique, and so is
the union of all loaded hook IDs. -/
def uniqueState (state : List (String × List Hook)) : Prop :=
  (state.map Prod.fst).Nodup ∧ (unionIDs state).Nodup

theorem uniqueState_each_nodup {state : List (String × List Hook)}
    (hu : uniqueState state) :
    ∀ p ∈ state, (p.2.map Hook.ID).Nodup := fun p hp =>
  (List.nodup_flatten.mp hu.2).1 _ (List.mem_map.mpr ⟨p, hp, rfl⟩)

theorem uniqueState_disjoint {state : List (String × List Hook)}
    (hu : uniqueState state) :
    ∀ p ∈ state, ∀ q ∈ state, p.1 ≠ q.1 →
      (p.2.map Hook.ID).Disjoint (q.2.map Hook.ID) := by
  intro p hp q hq hne
  have hpw : state.Pairwise (fun a b =>
      (a.2.map Hook.ID).Disjoint (b.2.map Hook.ID)) :=
    List.pairwise_map.mp (List.nodup_flatten.mp hu.2).2
  exact List.Pairwise.forall (fun a b hd => hd.symm) hpw hp hq
    (fun he => hne (by rw [he]))

theorem mem_unionIDs {state : List (String × List Hook)} {id : String} :
    id ∈ unionIDs state ↔ ∃ p ∈ state, id ∈ p.2.map Hook.ID := by
  unfold unionIDs
  rw [List.mem_flatten]
  constructor
  · rintro ⟨l, hl, hid⟩
    rcases List.mem_map.mp hl with ⟨p, hp, rfl⟩
    exact ⟨p, hp, hid⟩
  · rintro ⟨p, hp, hid⟩
    exact ⟨p.2.map Hook.ID, List.mem_map.mpr ⟨p, hp, rfl⟩, hid⟩

theorem collideB_iff {state : List (String × List Hook)} (path : String)
    (hu : uniqueState state) (h : Hook) :
    collideB state path h = true ↔
      ∃ p ∈ state, p.1 ≠ path ∧ h.ID ∈ p.2.map Hook.ID := by
  unfold collideB
  rw [Bool.and_eq_true]
  constructor
  · rintro ⟨h1, h2⟩
    rcases (matchLoadedHook_isSome _ _).mp h1 with ⟨p, hp, hid⟩
    refine ⟨p, hp, ?_, hid⟩
    intro hpp
    have hmemp : (path, p.2) ∈ state := by
      rw [← hpp]
      simpa using hp
    have hf := hooksInFile_eq_of_mem state path p.2 hu.1 hmemp
    have hws : (Hooks.Match (hooksInFile state path) h.ID).isSome = true := by
      rw [hf]
      exact (hooksMatch_isSome _ _).mpr hid
    rw [hws] at h2
    simp at h2
  · rintro ⟨p, hp, hne, hid⟩
    refine ⟨(matchLoadedHook_isSome _ _).mpr ⟨p, hp, hid⟩, ?_⟩
    cases hws : (Hooks.Match (hooksInFile state path) h.ID).isSome with
    | false => rfl
    | true =>
      exfalso
      have hmemf : h.ID ∈ (hooksInFile state path).map Hook.ID :=
        (hooksMatch_isSome _ _).mp hws
      rcases hooksInFile_spec state path with hnil | hmem
      · rw [hnil] at hmemf
        cases hmemf
      · exact uniqueState_disjoint hu p hp _ hmem (by simpa using hne)
          hid hmemf

theorem reloadCheckLoop_iff (state : List (String × List Hook))
    (path : String) (hs : List Hook) :
    ∀ seen, reloadCheckLoop state path seen hs = true ↔
      ((∃ h ∈ hs, collideB state path h = true) ∨
       (∃ h ∈ hs, h.ID ∈ seen) ∨ ¬ (hs.map Hook.ID).Nodup) := by
  induction hs with
  | nil => intro seen; simp [reloadCheckLoop]
  | cons h rest ih =>
    intro seen
    unfold reloadCheckLoop
    by_cases h1 : collideB state path h = true
    · rw [if_pos (by rw [Bool.or_eq_true]; exact Or.inl h1)]
      exact iff_of_true rfl (Or.inl ⟨h, List.mem_cons_self _ _, h1⟩)
    · by_cases h2 : h.ID ∈ seen
      · rw [if_pos (by rw [Bool.or_eq_true]; right; simpa using h2)]
        exact iff_of_true rfl
          (Or.inr (Or.inl ⟨h, List.mem_cons_self _ _, h2⟩))
      · rw [if_neg (by
          rw [Bool.or_eq_true]
          rintro (hc | hc)
          · exact h1 hc
          · exact h2 (by simpa using hc))]
        rw [ih (h.ID :: seen)]
        have hx : (∃ k ∈ rest, k.ID ∈ h.ID :: seen) ↔
            ((∃ k ∈ rest, k.ID = h.ID) ∨ (∃ k ∈ rest, k.ID ∈ seen)) := by
          simp only [List.mem_cons]
          constructor
          · rintro ⟨k, hk, hor | hor⟩
            · exact Or.inl ⟨k, hk, hor⟩
            · exact Or.inr ⟨k, hk, hor⟩
          · rintro (⟨k, hk, hh⟩ | ⟨k, hk, hh⟩)
            · exact ⟨k, hk, Or.inl hh⟩
            · exact ⟨k, hk, Or.inr hh⟩
        have hmapid : h.ID ∈ rest.map Hook.ID ↔
            ∃ k ∈ rest, k.ID = h.ID := by
          rw [List.mem_map]
        have hcons1 : (∃ k ∈ h :: rest, collideB state path k = true) ↔
            (∃ k ∈ rest, collideB state path k = true) := by
          constructor
          · rintro ⟨k, hk, hck⟩
            rcases List.mem_cons.mp hk with rfl | hk2
            · exact absurd hck h1
            · exact ⟨k, hk2, hck⟩
          · rintro ⟨k, hk, hck⟩
            exact ⟨k, List.mem_cons_of_mem _ hk, hck⟩
        have hcons2 : (∃ k ∈ h :: rest, k.ID ∈ seen) ↔
            (∃ k ∈ rest, k.ID ∈ seen) := by
          constructor
          · rintro ⟨k, hk, hks⟩
            rcases List.mem_cons.mp hk with rfl | hk2
            · exact absurd hks h2
            · exact ⟨k, hk2, hks⟩
          · rintro ⟨k, hk, hks⟩
            exact ⟨k, List.mem_cons_of_mem _ hk, hks⟩
        have hcons3 : ¬ ((h :: rest).map Hook.ID).Nodup ↔
            (h.ID ∈ rest.map Hook.ID ∨ ¬ (rest.map Hook.ID).Nodup) := by
          rw [List.map_cons, List.nodup_cons, not_and_or, not_not]
        constructor
        · rintro (hca | hcb | hcc)
          · exact Or.inl (hcons1.mpr hca)
          · rcases hx.mp hcb with hid | hseen
            · exact Or.inr (Or.inr (hcons3.mpr (Or.inl (hmapid.mpr hid))))
            · exact Or.inr (Or.inl (hcons2.mpr hseen))
          · exact Or.inr (Or.inr (hcons3.mpr (Or.inr hcc)))
        · rintro (hca | hcb | hcc)
          · exact Or.inl (hcons1.mp hca)
          · exact Or.inr (Or.inl (hx.mpr (Or.inr (hcons2.mp hcb))))
          · rcases hcons3.mp hcc with hid | hnd
            · exact Or.inr (Or.inl (hx.mpr (Or.inl (hmapid.mp hid))))
            · exact Or.inr (Or.inr hnd)

theorem mapUpdate_unique {state : List (String × List Hook)}
    {path : String} {hs : List Hook} (hu : uniqueState state)
    (hA : ∀ h ∈ hs, ∀ p ∈ state, p.1 ≠ path → h.ID ∉ p.2.map Hook.ID)
    (hB : (hs.map Hook.ID).Nodup) :
    uniqueState (mapUpdate state path hs) := by
  unfold mapUpdate
  by_cases hfound : (state.find? (fun p => p.1 = path)).isSome = true
  · rw [if_pos hfound]
    constructor
    · have hkeys : (state.map fun p =>
          if p.1 = path then (path, hs) else p).map Prod.fst =
          state.map Prod.fst := by
        rw [List.map_map]
        apply List.map_congr_left
        intro p hp
        by_cases hpp : p.1 = path
        · simp [hpp]
        · simp [hpp]
      rw [hkeys]
      exact hu.1
    · unfold unionIDs
      rw [List.map_map, List.nodup_flatten]
      constructor
      · intro l hl
        rcases List.mem_map.mp hl with ⟨p, hp, rfl⟩
        by_cases hpp : p.1 = path
        · simpa [Function.comp, hpp] using hB
        · simpa [Function.comp, hpp] using uniqueState_each_nodup hu p hp
      · rw [List.pairwise_map]
        have keysPW : state.Pairwise (fun a b => a.1 ≠ b.1) :=
          List.pairwise_map.mp hu.1
        have basePW : state.Pairwise (fun a b =>
            (a.2.map Hook.ID).Disjoint (b.2.map Hook.ID)) :=
          List.pairwise_map.mp (List.nodup_flatten.mp hu.2).2
        refine List.Pairwise.imp_of_mem ?_ (keysPW.and basePW)
        intro a b ha hb hab
        obtain ⟨hne, hdis⟩ := hab
        by_cases ha1 : a.1 = path <;> by_cases hb1 : b.1 = path
        · exact absurd (ha1.trans hb1.symm) hne
        · simp only [Function.comp_apply]
          rw [if_pos ha1, if_neg hb1]
          intro x hx hxb
          rcases List.mem_map.mp hx with ⟨k, hk, rfl⟩
          exact hA k hk b hb hb1 hxb
        · simp only [Function.comp_apply]
          rw [if_neg ha1, if_pos hb1]
          intro x hx hxb
          rcases List.mem_map.mp hxb with ⟨k, hk, rfl⟩
          exact hA k hk a ha ha1 hx
        · simp only [Function.comp_apply]
          rw [if_neg ha1, if_neg hb1]
          exact hdis
  · rw [if_neg hfound]
    have hnotin : path ∉ state.map Prod.fst := fun hmem =>
      hfound ((find_key_isSome state path).mpr hmem)
    constructor
    · rw [List.map_append, List.nodup_append]
      refine ⟨hu.1, by simp, ?_⟩
      intro x hx hxp
      simp only [List.map_cons, List.map_nil, List.mem_singleton] at hxp
      exact hnotin (hxp ▸ hx)
    · unfold unionIDs
      rw [List.map_append, List.flatten_append, List.nodup_append]
      refine ⟨hu.2, ?_, ?_⟩
      · simpa using hB
      · intro x hx hxh
        simp only [List.map_cons, List.map_nil, List.flatten_cons,
          List.flatten_nil, List.append_nil] at hxh
        rcases List.mem_flatten.mp hx with ⟨l, hl, hxl⟩
        rcases List.mem_map.mp hl with ⟨p, hp, rfl⟩
        rcases List.mem_map.mp hxh with ⟨k, hk, rfl⟩
        have hpne : p.1 ≠ path := fun hpp =>
          hnotin (hpp ▸ List.mem_map.mpr ⟨p, hp, rfl⟩)
        exact hA k hk p hp hpne hxl

/-- Claim C3's rejection condition as the specification words it:
some new hook's ID is already loaded from a different file, or the new
sequence itself repeats an ID. -/
def reloadConflict (state : List (String × List Hook)) (path : String)
    (hs : List Hook) : Prop :=
  (∃ h ∈ hs, ∃ p ∈ state, p.1 ≠ path ∧ h.ID ∈ p.2.map Hook.ID) ∨
  ¬ (hs.map Hook.ID).Nodup

/-- Claim C3's conclusion for a single-file reload of `path`: the
reload is rejected exactly on `reloadConflict`; a rejected reload (and
a failed parse) leaves the registry unchanged, an accepted one replaces
the file's sequence; and ID-uniqueness of the union is preserved either
way. -/
def reloadClaim (state : List (String × List Hook)) (path : String)
    (hs : List Hook) : Prop :=
  (reloadRejects state path hs = true ↔ reloadConflict state path hs) ∧
  (reloadRejects state path hs = true →
    reloadHooks state path (some hs) = state) ∧
  (reloadRejects state path hs = false →
    reloadHooks state path (some hs) = mapUpdate state path hs) ∧
  uniqueState (reloadHooks state path (some hs)) ∧
  reloadHooks state path none = state

/-- **C3** — for every registry state whose file paths and union of
hook IDs are unique: a single-file reload is rejected iff a new hook's
ID collides with an ID loaded from a different file or the new sequence
repeats an ID; a rejected reload keeps the previous state, an accepted
one replaces the file's sequence; and the union of all per-file
sequences keeps unique IDs. -/
theorem c3_reload_hooks (state : List (String × List Hook))
    (path : String) (hs : List Hook) (hu : uniqueState state) :
    reloadClaim state path hs := by
  have hiff : reloadRejects state path hs = true ↔
      reloadConflict state path hs := by
    unfold reloadRejects reloadConflict
    rw [reloadCheckLoop_iff state path hs []]
    constructor
    · rintro (⟨h, hh, hc⟩ | ⟨h, hh, hmem⟩ | hnd)
      · exact Or.inl ⟨h, hh, (collideB_iff path hu h).mp hc⟩
      · cases hmem
      · exact Or.inr hnd
    · rintro (⟨h, hh, hc⟩ | hnd)
      · exact Or.inl ⟨h, hh, (collideB_iff path hu h).mpr hc⟩
      · exact Or.inr (Or.inr hnd)
  refine ⟨hiff, ?_, ?_, ?_, rfl⟩
  · intro hrej
    simp [reloadHooks, hrej]
  · intro hrej
    simp [reloadHooks, hrej]
  · by_cases hrej : reloadRejects state path hs = true
    · simp only [reloadHooks, if_pos hrej]
      exact hu
    · have hrej' : reloadRejects state path hs = false := by
        cases hb : reloadRejects state path hs
        · rfl
        · exact absurd hb hrej
      simp only [reloadHooks, hrej', Bool.false_eq_true, if_false]
      have hnc : ¬ reloadConflict state path hs := fun hc =>
        hrej (hiff.mpr hc)
      unfold reloadConflict at hnc
      push_neg at hnc
      exact mapUpdate_unique hu hnc.1 hnc.2

/-- The hook `x` loaded from file `a.json` in the `c3_reload_hooks`
witness. -/
def c3HookW : Hook := { hookZeroW with ID := "x" }

/-- The registry state of the `c3_reload_hooks` witness: one file
defining hook `x`. -/
def c3StateW : List (String × List Hook) := [("a.json", [c3HookW])]

/-- Witness for `c3_reload_hooks`: reloading file `b.json` with a
sequence that also defines `x` (already loaded from `a.json`). -/
theorem c3_reload_hooks_witness :
    uniqueState c3StateW ∧ reloadClaim c3StateW "b.json" [c3HookW] :=
  ⟨⟨by decide, by decide⟩,
    c3_reload_hooks c3StateW "b.json" [c3HookW] ⟨by decide, by decide⟩⟩

end Webhook
